import Mathlib

/-!
# Verification of the dynasm-rs runtime buffer module (`src/runtime/src/mmap.rs`)

Shallow embedding of the `ExecutableBuffer` / `MutableBuffer` region abstraction
and of the aarch64 `cache_management` module, with theorems settling the spec's
claims about them.

Modelling conventions:
* bytes are `Nat`s, mapping contents are `List Nat`;
* the OS mapping provider (the `memmap` crate / `mmap`+`mprotect`) is a
  `Provider` value telling which calls succeed; per the provider contract a
  successful protection flip preserves content, a failed one returns an opaque
  `io::Error`;
* operations that can call the provider also return the list of provider calls
  they made, so that "no mapping-provider call occurs" is a statable property;
* Rust code paths that panic (slicing past the end of a mapping) are modelled
  as `Option`, `none` being the panic.
-/

set_option autoImplicit false

/-- An `std::io::Error` as surfaced by the mapping provider; opaque here. -/
inductive IoErr where
  | ioError
deriving DecidableEq

/-- A writable anonymous mapping (`memmap::MmapMut`); `bytes` is its content. -/
structure MmapMut where
  bytes : List Nat
deriving DecidableEq

/-- An executable (read+execute) mapping (`memmap::Mmap`); `bytes` is its content. -/
structure Mmap where
  bytes : List Nat
deriving DecidableEq

/-- Trace entry for one call into the OS mapping provider. -/
inductive PCall where
  | mapAnon (size : Nat)
  | makeExec
  | makeMut
deriving DecidableEq

/-- The OS mapping provider: which `map_anon` / protection-flip calls succeed.
Per the provider contract (spec section 6) a grant preserves content (`map_anon`
yields zeroed pages, flips keep the bytes); a denial yields an `io::Error`. -/
structure Provider where
  mapAnonOk : Nat → Bool
  execOk : List Nat → Bool
  mutOk : List Nat → Bool

/-- `MmapMut::map_anon(size)`: a zero-filled writable mapping of `size` bytes. -/
def Provider.mapAnon (P : Provider) (size : Nat) : Except IoErr MmapMut :=
  if P.mapAnonOk size then .ok ⟨List.replicate size 0⟩ else .error .ioError

/-- `MmapMut::make_exec(self)`: flip the mapping protection to executable. -/
def Provider.makeExec (P : Provider) (m : MmapMut) : Except IoErr Mmap :=
  if P.execOk m.bytes then .ok ⟨m.bytes⟩ else .error .ioError

/-- `Mmap::make_mut(self)`: flip the mapping protection back to writable. -/
def Provider.makeMut (P : Provider) (m : Mmap) : Except IoErr MmapMut :=
  if P.mutOk m.bytes then .ok ⟨m.bytes⟩ else .error .ioError

/-- `ExecutableBuffer`: executable-mode region; `length` is the written
(used) length, `buffer` the optional backing mapping (`None` iff size 0). -/
structure ExecutableBuffer where
  length : Nat
  buffer : Option Mmap
deriving DecidableEq

/-- `MutableBuffer`: writable-mode region, same fields. -/
structure MutableBuffer where
  length : Nat
  buffer : Option MmapMut
deriving DecidableEq

/-- `ExecutableBuffer::size`: `self.buffer.as_ref().map(|b| b.len()).unwrap_or(0)`. -/
def ExecutableBuffer.size (b : ExecutableBuffer) : Nat :=
  (b.buffer.map (fun m => m.bytes.length)).getD 0

/-- `MutableBuffer::size`, same body. -/
def MutableBuffer.size (b : MutableBuffer) : Nat :=
  (b.buffer.map (fun m => m.bytes.length)).getD 0

/-- `ExecutableBuffer::new(size)`: anonymous map then flip to exec, or `None`
backing when `size == 0`; the second component is the provider-call trace. -/
def ExecutableBuffer.new (P : Provider) (size : Nat) :
    Except IoErr ExecutableBuffer × List PCall :=
  if size = 0 then (.ok ⟨0, none⟩, [])
  else
    match P.mapAnon size with
    | .error e => (.error e, [.mapAnon size])
    | .ok m =>
      match P.makeExec m with
      | .error e => (.error e, [.mapAnon size, .makeExec])
      | .ok mm => (.ok ⟨0, some mm⟩, [.mapAnon size, .makeExec])

/-- `MutableBuffer::new(size)`: anonymous map, or `None` backing when `size == 0`. -/
def MutableBuffer.new (P : Provider) (size : Nat) :
    Except IoErr MutableBuffer × List PCall :=
  if size = 0 then (.ok ⟨0, none⟩, [])
  else
    match P.mapAnon size with
    | .error e => (.error e, [.mapAnon size])
    | .ok m => (.ok ⟨0, some m⟩, [.mapAnon size])

/-- `MutableBuffer::set_len(length)`: sets `self.length = length`, nothing else. -/
def MutableBuffer.set_len (b : MutableBuffer) (length : Nat) : MutableBuffer :=
  { b with length := length }

/-- `MutableBuffer::make_exec(self)`: flip the backing mapping (if any) to
executable and carry `length` over; consumes `self`, returning only the
`io::Result` (plus the provider-call trace in this model). -/
def MutableBuffer.make_exec (P : Provider) (b : MutableBuffer) :
    Except IoErr ExecutableBuffer × List PCall :=
  match b.buffer with
  | none => (.ok ⟨b.length, none⟩, [])
  | some m =>
    match P.makeExec m with
    | .error e => (.error e, [.makeExec])
    | .ok mm => (.ok ⟨b.length, some mm⟩, [.makeExec])

/-- `ExecutableBuffer::make_mut(self)`: flip back to writable, carrying `length`. -/
def ExecutableBuffer.make_mut (P : Provider) (b : ExecutableBuffer) :
    Except IoErr MutableBuffer × List PCall :=
  match b.buffer with
  | none => (.ok ⟨b.length, none⟩, [])
  | some m =>
    match P.makeMut m with
    | .error e => (.error e, [.makeMut])
    | .ok mm => (.ok ⟨b.length, some mm⟩, [.makeMut])

/-- `Deref for ExecutableBuffer`: `&map[..self.length]` (panics — `none` — when
`length` exceeds the mapping), or `&[]` when there is no backing. -/
def ExecutableBuffer.deref (b : ExecutableBuffer) : Option (List Nat) :=
  match b.buffer with
  | some m => if b.length ≤ m.bytes.length then some (m.bytes.take b.length) else none
  | none => some []

/-- `Deref for MutableBuffer`, same body. -/
def MutableBuffer.deref (b : MutableBuffer) : Option (List Nat) :=
  match b.buffer with
  | some m => if b.length ≤ m.bytes.length then some (m.bytes.take b.length) else none
  | none => some []

/-- `DerefMut for MutableBuffer`: the view handed out mutably; same range and
panic behaviour as `deref`. -/
def MutableBuffer.deref_mut (b : MutableBuffer) : Option (List Nat) :=
  match b.buffer with
  | some m => if b.length ≤ m.bytes.length then some (m.bytes.take b.length) else none
  | none => some []

/-- Modelled from the spec: the caller-side step "write bytes `B` into a
Writable region" (spec sections 3 and 8) is not under `src/`; writing goes
through the region's mutable view into the backing mapping, so it stores `B`
at offset 0 of the backing and fails (panics) if `B` exceeds it. A region
with no backing accepts only the empty write. -/
def MutableBuffer.write (b : MutableBuffer) (B : List Nat) : Option MutableBuffer :=
  match b.buffer with
  | some m =>
    if B.length ≤ m.bytes.length
    then some ⟨b.length, some ⟨B ++ m.bytes.drop B.length⟩⟩
    else none
  | none => if B.isEmpty then some b else none

/-- Modelled from the spec: the spec's `to_executable` (section 4.1) also
"invokes the cache coherency manager over `[0, used_length)`"; that call site
lives in callers outside `src/` (only `make_exec` and
`invalidate_icache_lines` themselves are in `src/`). Composed here following
the spec's words: flip protection via `make_exec`, then, when there is a
backing, hand the byte range of length `used_length` to the cache coherency
manager. The third component records the length of the range so handed
(`none` when the manager is not invoked). -/
def MutableBuffer.to_executable (P : Provider) (b : MutableBuffer) :
    Except IoErr ExecutableBuffer × List PCall × Option Nat :=
  match b.make_exec P with
  | (.ok e, calls) => (.ok e, calls, if e.buffer.isSome then some e.length else none)
  | (.error err, calls) => (.error err, calls, none)

/-! ## aarch64 `cache_management` (`src/runtime/src/mmap.rs`, lines 172-254)

The hardware inputs are the successive reads of the `ctr_el0` cache-type
register (one per `get_cacheline_size()` call), modelled as a sequence
`ctr : Nat → Nat`; the `ic ivau` calls are modelled by the list of addresses
they are issued at. The slice argument of `invalidate_icache_lines` is
modelled by its start address and length. -/

/-- `get_cacheline_size()`: `4 << (ctr_el0 & 0xF)`. -/
def get_cacheline_size (ctr : Nat) : Nat :=
  4 <<< (ctr &&& 0xF)

/-- A value the cache-geometry query can return. -/
def IsLineSize (s : Nat) : Prop :=
  ∃ c, s = get_cacheline_size c

/-- `addr & !(lineSize - 1)`: align `addr` down to a multiple of `lineSize`.
Every mask the source uses is a power of two (`4` on the fast path,
`4 << (ctr_el0 & 0xF)` in the sweep), for which clearing the low bits is
subtracting `addr % lineSize`. -/
def alignDown (addr lineSize : Nat) : Nat :=
  addr - addr % lineSize

/-- The inner sweep loop: `while addr < end_addr { invalidate_cacheline(addr);
addr += line_size; }`, returning the addresses passed to `ic ivau`. The
`lineSize = 0` guard makes the function total; the source loop would not
terminate there, and every hardware-reported size is at least 4. -/
def icSweep (addr endAddr lineSize : Nat) : List Nat :=
  if _h1 : addr < endAddr then
    if _h2 : 0 < lineSize then
      addr :: icSweep (addr + lineSize) endAddr lineSize
    else []
  else []
termination_by endAddr - addr
decreasing_by omega

/-- The outer re-query loop: `while current_line_size > line_size { ... }`.
`i` is the index of the next `ctr_el0` read, `current` and `lineSize` the
`current_line_size` / `line_size` variables; returns all `ic ivau` addresses. -/
def icRounds (q : Nat → Nat) (i current lineSize startAddr endAddr : Nat) : List Nat :=
  if _h : lineSize < current then
    icSweep (alignDown startAddr lineSize) endAddr lineSize
      ++ icRounds q (i + 1) lineSize (q i) startAddr endAddr
  else []
termination_by current
decreasing_by omega

/-- The line sizes the outer loop actually sweeps with, same recursion as
`icRounds`. -/
def usedSizesAux (q : Nat → Nat) (i current lineSize : Nat) : List Nat :=
  if _h : lineSize < current then
    lineSize :: usedSizesAux q (i + 1) lineSize (q i)
  else []
termination_by current
decreasing_by omega

/-- The general (`len > 4`) path of `invalidate_icache_lines` on its own:
first query at index 0, `current_line_size = 0xFFFFFFFF`, sweep until the
re-queried size is no longer smaller. -/
def icache_sweep_loop (ctr : Nat → Nat) (start len : Nat) : List Nat :=
  icRounds (fun j => get_cacheline_size (ctr j)) 1 0xFFFFFFFF
    (get_cacheline_size (ctr 0)) start (start + len)

/-- Line sizes swept with by `icache_sweep_loop` for the query sequence `ctr`. -/
def usedLineSizes (ctr : Nat → Nat) : List Nat :=
  usedSizesAux (fun j => get_cacheline_size (ctr j)) 1 0xFFFFFFFF
    (get_cacheline_size (ctr 0))

/-- `cache_management::invalidate_icache_lines(slice)` for the slice
`[start, start + len)`: fast path (one `ic ivau` at `ptr & !3`) when
`len <= 4`, otherwise the re-query sweep loop. -/
def invalidate_icache_lines (ctr : Nat → Nat) (start len : Nat) : List Nat :=
  if len ≤ 4 then [alignDown start 4]
  else icache_sweep_loop ctr start len

/-- The instruction-cache line of size `s` based at `a` intersects the byte
range `[start, endAddr)` — "the line set over the range implied by size `s`"
(spec section 4.2). -/
def lineCovers (s a start endAddr : Nat) : Prop :=
  s ∣ a ∧ a < endAddr ∧ start < a + s

/-! ## Claims about the region abstraction -/

/-- Claim C7: for every size `s` the provider grants, `MutableBuffer::new(s)`
returns a buffer with `size() = s` and `length = 0`; for `s = 0` no provider
call occurs and the view is empty. -/
theorem new_grants_size_and_empty (P : Provider) (s : Nat) (hg : P.mapAnonOk s = true) :
    ∃ b : MutableBuffer,
      (MutableBuffer.new P s).1 = .ok b ∧ b.size = s ∧ b.length = 0 ∧
      (s = 0 → (MutableBuffer.new P s).2 = [] ∧ b.deref = some []) := by
  by_cases h0 : s = 0
  · subst h0
    exact ⟨⟨0, none⟩, by simp [MutableBuffer.new], rfl, rfl,
      fun _ => ⟨by simp [MutableBuffer.new], rfl⟩⟩
  · refine ⟨⟨0, some ⟨List.replicate s 0⟩⟩, ?_, ?_, rfl, fun hc => absurd hc h0⟩
    · simp [MutableBuffer.new, h0, Provider.mapAnon, hg]
    · simp [MutableBuffer.size]

/-- Witness for C7 at `s = 3` and an all-granting provider. -/
theorem new_grants_size_and_empty_witness :
    ∃ b : MutableBuffer,
      (MutableBuffer.new ⟨fun _ => true, fun _ => true, fun _ => true⟩ 3).1 = .ok b ∧
      b.size = 3 ∧ b.length = 0 ∧
      ((3 : Nat) = 0 →
        (MutableBuffer.new ⟨fun _ => true, fun _ => true, fun _ => true⟩ 3).2 = [] ∧
        b.deref = some []) :=
  new_grants_size_and_empty ⟨fun _ => true, fun _ => true, fun _ => true⟩ 3 rfl

/-- Claim C8: every operation on a zero-capacity region (no backing) is a
no-op success with no provider call, in both modes and both transition
directions; `to_executable` on it yields an empty Executable region. -/
theorem zero_capacity_noop (P : Provider) (eb : ExecutableBuffer) (mb : MutableBuffer)
    (he : eb.buffer = none) (hm : mb.buffer = none) :
    eb.size = 0 ∧ mb.size = 0 ∧
    eb.deref = some [] ∧ mb.deref = some [] ∧ mb.deref_mut = some [] ∧
    mb.make_exec P = (.ok ⟨mb.length, none⟩, []) ∧
    eb.make_mut P = (.ok ⟨eb.length, none⟩, []) ∧
    mb.to_executable P = (.ok ⟨mb.length, none⟩, [], none) ∧
    (ExecutableBuffer.mk mb.length none).size = 0 ∧
    (ExecutableBuffer.mk mb.length none).deref = some [] := by
  obtain ⟨le, be⟩ := eb
  obtain ⟨lm, bm⟩ := mb
  subst he
  subst hm
  refine ⟨rfl, rfl, rfl, rfl, rfl, rfl, rfl, ?_, rfl, rfl⟩
  simp [MutableBuffer.to_executable, MutableBuffer.make_exec]

/-- Witness for C8 at the default (zero-capacity) buffers. -/
theorem zero_capacity_noop_witness :
    (ExecutableBuffer.mk 0 none).size = 0 ∧ (MutableBuffer.mk 0 none).size = 0 ∧
    (ExecutableBuffer.mk 0 none).deref = some [] ∧
    (MutableBuffer.mk 0 none).deref = some [] ∧
    (MutableBuffer.mk 0 none).deref_mut = some [] ∧
    (MutableBuffer.mk 0 none).make_exec ⟨fun _ => false, fun _ => false, fun _ => false⟩
      = (.ok ⟨0, none⟩, []) ∧
    (ExecutableBuffer.mk 0 none).make_mut ⟨fun _ => false, fun _ => false, fun _ => false⟩
      = (.ok ⟨0, none⟩, []) ∧
    (MutableBuffer.mk 0 none).to_executable ⟨fun _ => false, fun _ => false, fun _ => false⟩
      = (.ok ⟨0, none⟩, [], none) ∧
    (ExecutableBuffer.mk 0 none).size = 0 ∧
    (ExecutableBuffer.mk 0 none).deref = some [] :=
  zero_capacity_noop ⟨fun _ => false, fun _ => false, fun _ => false⟩
    ⟨0, none⟩ ⟨0, none⟩ rfl rfl

/-- A region view exists and has length `used_length` whenever
`used_length ≤ capacity` (executable mode). -/
theorem execBuffer_deref_len_of_le (b : ExecutableBuffer) (h : b.length ≤ b.size) :
    ∃ v, b.deref = some v ∧ v.length = b.length := by
  obtain ⟨l, bb⟩ := b
  cases bb with
  | none =>
    refine ⟨[], rfl, ?_⟩
    simp only [ExecutableBuffer.size, Option.map_none', Option.getD_none] at h
    simpa using (Nat.le_zero.mp h).symm
  | some m =>
    simp only [ExecutableBuffer.size, Option.map_some', Option.getD_some] at h
    exact ⟨m.bytes.take l, by simp [ExecutableBuffer.deref, h],
      by simp [List.length_take]; omega⟩

theorem mutBuffer_deref_len_of_le (b : MutableBuffer) (h : b.length ≤ b.size) :
    ∃ v, b.deref = some v ∧ v.length = b.length := by
  obtain ⟨l, bb⟩ := b
  cases bb with
  | none =>
    refine ⟨[], rfl, ?_⟩
    simp only [MutableBuffer.size, Option.map_none', Option.getD_none] at h
    simpa using (Nat.le_zero.mp h).symm
  | some m =>
    simp only [MutableBuffer.size, Option.map_some', Option.getD_some] at h
    exact ⟨m.bytes.take l, by simp [MutableBuffer.deref, h],
      by simp [List.length_take]; omega⟩

theorem MutableBuffer.deref_mut_eq_deref (b : MutableBuffer) : b.deref_mut = b.deref := rfl

/-- Claim C9: under the data-model invariant `used_length ≤ capacity`, the
visible byte view of a region in either mode has length exactly
`used_length`, never `capacity`; in particular `used_length = 0` gives an
empty view even with non-zero capacity. -/
theorem view_length_is_used_length (eb : ExecutableBuffer) (mb : MutableBuffer)
    (he : eb.length ≤ eb.size) (hm : mb.length ≤ mb.size) :
    (∃ v, eb.deref = some v ∧ v.length = eb.length) ∧
    (∃ v, mb.deref = some v ∧ v.length = mb.length) ∧
    (∃ w, mb.deref_mut = some w ∧ w.length = mb.length) ∧
    (eb.length = 0 → eb.deref = some []) ∧
    (mb.length = 0 → mb.deref = some []) := by
  refine ⟨execBuffer_deref_len_of_le eb he, mutBuffer_deref_len_of_le mb hm, ?_, ?_, ?_⟩
  · rw [mb.deref_mut_eq_deref]
    exact mutBuffer_deref_len_of_le mb hm
  · intro h0
    obtain ⟨v, hv, hlen⟩ := execBuffer_deref_len_of_le eb he
    rw [hv, List.length_eq_zero.mp (hlen.trans h0)]
  · intro h0
    obtain ⟨v, hv, hlen⟩ := mutBuffer_deref_len_of_le mb hm
    rw [hv, List.length_eq_zero.mp (hlen.trans h0)]

/-- Witness for C9: capacity 2, `used_length` 1. -/
theorem view_length_is_used_length_witness :
    (∃ v, (ExecutableBuffer.mk 1 (some ⟨[7, 8]⟩)).deref = some v ∧
      v.length = (ExecutableBuffer.mk 1 (some ⟨[7, 8]⟩)).length) ∧
    (∃ v, (MutableBuffer.mk 1 (some ⟨[7, 8]⟩)).deref = some v ∧
      v.length = (MutableBuffer.mk 1 (some ⟨[7, 8]⟩)).length) ∧
    (∃ w, (MutableBuffer.mk 1 (some ⟨[7, 8]⟩)).deref_mut = some w ∧
      w.length = (MutableBuffer.mk 1 (some ⟨[7, 8]⟩)).length) ∧
    ((ExecutableBuffer.mk 1 (some ⟨[7, 8]⟩)).length = 0 →
      (ExecutableBuffer.mk 1 (some ⟨[7, 8]⟩)).deref = some []) ∧
    ((MutableBuffer.mk 1 (some ⟨[7, 8]⟩)).length = 0 →
      (MutableBuffer.mk 1 (some ⟨[7, 8]⟩)).deref = some []) :=
  view_length_is_used_length (ExecutableBuffer.mk 1 (some ⟨[7, 8]⟩))
    (MutableBuffer.mk 1 (some ⟨[7, 8]⟩)) (by decide) (by decide)

/-- Claim C10: `set_len(n)` always succeeds with no bounds check, changing
only the `length` field — the backing mapping and `size()` are untouched for
every `n`, even `n > capacity`; the fail-fast fault for an oversized length
happens only at a later view access (`deref` / `deref_mut` panic when the
backing is too short), never at the `set_len` call itself. -/
theorem set_len_unchecked_and_frame (b : MutableBuffer) (n : Nat) :
    (b.set_len n).length = n ∧
    (b.set_len n).buffer = b.buffer ∧
    (b.set_len n).size = b.size ∧
    (∀ m, b.buffer = some m → b.size < n →
      (b.set_len n).deref = none ∧ (b.set_len n).deref_mut = none) := by
  refine ⟨rfl, rfl, rfl, ?_⟩
  intro m hm hlt
  obtain ⟨l, bb⟩ := b
  simp only at hm
  subst hm
  simp only [MutableBuffer.size, Option.map_some', Option.getD_some] at hlt
  constructor
  · simp [MutableBuffer.set_len, MutableBuffer.deref]
    omega
  · simp [MutableBuffer.set_len, MutableBuffer.deref_mut]
    omega

/-- Witness for C10: a capacity-1 region, `set_len 5`. -/
theorem set_len_unchecked_and_frame_witness :
    ((MutableBuffer.mk 0 (some ⟨[9]⟩)).set_len 5).length = 5 ∧
    ((MutableBuffer.mk 0 (some ⟨[9]⟩)).set_len 5).size
      = (MutableBuffer.mk 0 (some ⟨[9]⟩)).size ∧
    ((MutableBuffer.mk 0 (some ⟨[9]⟩)).set_len 5).deref = none :=
  ⟨(set_len_unchecked_and_frame (MutableBuffer.mk 0 (some ⟨[9]⟩)) 5).1,
    (set_len_unchecked_and_frame (MutableBuffer.mk 0 (some ⟨[9]⟩)) 5).2.2.1,
    ((set_len_unchecked_and_frame (MutableBuffer.mk 0 (some ⟨[9]⟩)) 5).2.2.2
      ⟨[9]⟩ rfl (by decide)).1⟩

/-- Claim C2, counterexample: `make_exec(self)` takes the region by value and
returns `io::Result<ExecutableBuffer>`, so when the provider denies the flip
the caller is left with only an `io::Error` — two distinct regions produce
identical failure results, hence the failure result cannot contain "the
original region" and the caller cannot continue using it, contradicting the
claim that the original Writable region remains valid and unconsumed. -/
theorem make_exec_failure_consumes_cex :
    ((MutableBuffer.mk 1 (some ⟨[0]⟩)).make_exec
        ⟨fun _ => true, fun _ => false, fun _ => true⟩).1 = .error .ioError ∧
    ((MutableBuffer.mk 1 (some ⟨[1]⟩)).make_exec
        ⟨fun _ => true, fun _ => false, fun _ => true⟩).1 = .error .ioError ∧
    MutableBuffer.mk 1 (some ⟨[0]⟩) ≠ MutableBuffer.mk 1 (some ⟨[1]⟩) ∧
    (MutableBuffer.mk 1 (some ⟨[0]⟩)).make_exec
        ⟨fun _ => true, fun _ => false, fun _ => true⟩
      = (MutableBuffer.mk 1 (some ⟨[1]⟩)).make_exec
        ⟨fun _ => true, fun _ => false, fun _ => true⟩ :=
  ⟨rfl, rfl, by decide, rfl⟩

/-- Claim C2 as amended: when the provider denies the protection flip on a
backed region, `make_exec` surfaces the provider's error after exactly one
flip attempt; the region value was consumed by the call and the failure
result carries no region, so it is not returned to the caller. -/
theorem make_exec_failure_error_only (P : Provider) (b : MutableBuffer) (m : MmapMut)
    (hb : b.buffer = some m) (hdeny : P.execOk m.bytes = false) :
    b.make_exec P = (.error .ioError, [.makeExec]) := by
  obtain ⟨l, bb⟩ := b
  simp only at hb
  subst hb
  simp [MutableBuffer.make_exec, Provider.makeExec, hdeny]

/-- Witness for the amended C2 at a concrete denying provider. -/
theorem make_exec_failure_error_only_witness :
    (MutableBuffer.mk 1 (some ⟨[0]⟩)).make_exec
        ⟨fun _ => true, fun _ => false, fun _ => true⟩
      = (.error .ioError, [.makeExec]) :=
  make_exec_failure_error_only ⟨fun _ => true, fun _ => false, fun _ => true⟩
    (MutableBuffer.mk 1 (some ⟨[0]⟩)) ⟨[0]⟩ rfl rfl

/-- Claim C6: write `B` into a Writable region of sufficient capacity, set
`used_length` to `B.length`, transition to Executable and back to Writable
(the provider granting both flips and, by contract, preserving content): the
resulting view is exactly `B`. -/
theorem roundtrip_content_preserved (P : Provider) (m : MmapMut) (B : List Nat)
    (hcap : B.length ≤ m.bytes.length)
    (hexec : ∀ bs, P.execOk bs = true) (hmut : ∀ bs, P.mutOk bs = true) :
    ∃ b1 e b2,
      (MutableBuffer.mk 0 (some m)).write B = some b1 ∧
      ((b1.set_len B.length).make_exec P).1 = .ok e ∧
      (e.make_mut P).1 = .ok b2 ∧
      b2.deref = some B := by
  refine ⟨⟨0, some ⟨B ++ m.bytes.drop B.length⟩⟩,
    ⟨B.length, some ⟨B ++ m.bytes.drop B.length⟩⟩,
    ⟨B.length, some ⟨B ++ m.bytes.drop B.length⟩⟩, ?_, ?_, ?_, ?_⟩
  · simp [MutableBuffer.write, hcap]
  · simp [MutableBuffer.set_len, MutableBuffer.make_exec, Provider.makeExec, hexec]
  · simp [ExecutableBuffer.make_mut, Provider.makeMut, hmut]
  · simp [MutableBuffer.deref]

/-- Witness for C6: capacity 2, bytes `[7]`, all-granting provider. -/
theorem roundtrip_content_preserved_witness :
    ∃ b1 e b2,
      (MutableBuffer.mk 0 (some ⟨[0, 0]⟩)).write [7] = some b1 ∧
      ((b1.set_len (List.length [7])).make_exec
        ⟨fun _ => true, fun _ => true, fun _ => true⟩).1 = .ok e ∧
      (e.make_mut ⟨fun _ => true, fun _ => true, fun _ => true⟩).1 = .ok b2 ∧
      b2.deref = some [7] :=
  roundtrip_content_preserved ⟨fun _ => true, fun _ => true, fun _ => true⟩
    ⟨[0, 0]⟩ [7] (by decide) (fun _ => rfl) (fun _ => rfl)

/-- Claim C1: on a Writable region with non-zero backing whose flip the
provider grants, `to_executable` performs exactly one provider
protection-flip call, invokes the cache coherency manager over the byte
range `[0, used_length)`, and returns an Executable region carrying over
`used_length`. -/
theorem to_executable_nonzero_spec (P : Provider) (b : MutableBuffer) (m : MmapMut)
    (hb : b.buffer = some m) (hgrant : P.execOk m.bytes = true) :
    ∃ e, b.to_executable P = (.ok e, [.makeExec], some b.length) ∧
      e.length = b.length := by
  obtain ⟨l, bb⟩ := b
  simp only at hb
  subst hb
  exact ⟨⟨l, some ⟨m.bytes⟩⟩,
    by simp [MutableBuffer.to_executable, MutableBuffer.make_exec,
      Provider.makeExec, hgrant], rfl⟩

/-- Witness for C1 at a concrete one-byte region and granting provider. -/
theorem to_executable_nonzero_spec_witness :
    ∃ e, (MutableBuffer.mk 1 (some ⟨[3]⟩)).to_executable
        ⟨fun _ => true, fun _ => true, fun _ => true⟩
      = (.ok e, [.makeExec], some (MutableBuffer.mk 1 (some ⟨[3]⟩)).length) ∧
      e.length = (MutableBuffer.mk 1 (some ⟨[3]⟩)).length :=
  to_executable_nonzero_spec ⟨fun _ => true, fun _ => true, fun _ => true⟩
    (MutableBuffer.mk 1 (some ⟨[3]⟩)) ⟨[3]⟩ rfl rfl

/-! ## Lemmas about the cache-invalidation sweep -/

theorem isLineSize_pow (s : Nat) (h : IsLineSize s) : ∃ k, k ≤ 15 ∧ s = 2 ^ (k + 2) := by
  obtain ⟨c, rfl⟩ := h
  refine ⟨c &&& 0xF, Nat.and_le_right, ?_⟩
  rw [get_cacheline_size, Nat.shiftLeft_eq, pow_add]
  ring

theorem isLineSize_pos (s : Nat) (h : IsLineSize s) : 0 < s := by
  obtain ⟨k, _, rfl⟩ := isLineSize_pow s h
  positivity

theorem isLineSize_dvd_four (s : Nat) (h : IsLineSize s) : 4 ∣ s := by
  obtain ⟨k, _, rfl⟩ := isLineSize_pow s h
  exact ⟨2 ^ k, by rw [pow_add]; ring⟩

theorem mem_icSweep_aux (endAddr lineSize : Nat) (hs : 0 < lineSize) :
    ∀ n addr a, endAddr - addr ≤ n →
      (a ∈ icSweep addr endAddr lineSize ↔ ∃ k, a = addr + k * lineSize ∧ a < endAddr) := by
  intro n
  induction n with
  | zero =>
    intro addr a h
    rw [icSweep, dif_neg (by omega)]
    simp only [List.not_mem_nil, false_iff, not_exists, not_and]
    intro k hk
    omega
  | succ n ih =>
    intro addr a h
    by_cases hlt : addr < endAddr
    · rw [icSweep, dif_pos hlt, dif_pos hs, List.mem_cons,
        ih (addr + lineSize) a (by omega)]
      constructor
      · rintro (rfl | ⟨k, rfl, hke⟩)
        · exact ⟨0, by omega, hlt⟩
        · exact ⟨k + 1, by rw [Nat.succ_mul]; omega, hke⟩
      · rintro ⟨k, rfl, hke⟩
        cases k with
        | zero => exact Or.inl (by omega)
        | succ k => exact Or.inr ⟨k, by rw [Nat.succ_mul]; omega, hke⟩
    · rw [icSweep, dif_neg hlt]
      simp only [List.not_mem_nil, false_iff, not_exists, not_and]
      intro k hk
      omega

/-- The single-size sweep starting at the aligned-down start address
invalidates exactly the lines of that size intersecting the range. -/
theorem mem_icSweep_alignDown (start endAddr lineSize a : Nat) (hs : 0 < lineSize) :
    a ∈ icSweep (alignDown start lineSize) endAddr lineSize ↔
      lineCovers lineSize a start endAddr := by
  rw [mem_icSweep_aux endAddr lineSize hs (endAddr - alignDown start lineSize)
    (alignDown start lineSize) a le_rfl]
  have hdm := Nat.div_add_mod start lineSize
  have hmlt : start % lineSize < lineSize := Nat.mod_lt start hs
  unfold lineCovers alignDown
  constructor
  · rintro ⟨k, rfl, hke⟩
    refine ⟨?_, hke, by omega⟩
    have hrw : start - start % lineSize + k * lineSize
        = lineSize * (start / lineSize) + lineSize * k := by
      rw [Nat.mul_comm k lineSize]
      omega
    rw [hrw]
    exact Dvd.dvd.add (Dvd.intro _ rfl) (Dvd.intro _ rfl)
  · rintro ⟨⟨m, rfl⟩, hlt, hgt⟩
    have hml0 : lineSize * m = m * lineSize := Nat.mul_comm _ _
    have hdiv_le : start / lineSize ≤ m := by
      have : start / lineSize < m + 1 :=
        (Nat.div_lt_iff_lt_mul hs).mpr (by rw [Nat.add_mul]; omega)
      omega
    refine ⟨m - start / lineSize, ?_, hlt⟩
    have hsub : (m - start / lineSize) * lineSize
        = m * lineSize - (start / lineSize) * lineSize := Nat.sub_mul _ _ _
    have hle : (start / lineSize) * lineSize ≤ m * lineSize :=
      Nat.mul_le_mul_right _ hdiv_le
    have hml : lineSize * m = m * lineSize := Nat.mul_comm _ _
    have hml2 : lineSize * (start / lineSize) = (start / lineSize) * lineSize :=
      Nat.mul_comm _ _
    omega

/-- The outer loop's invalidations are exactly the union of the single-size
sweeps over the sizes it actually uses. -/
theorem mem_icRounds (q : Nat → Nat) (startAddr endAddr a : Nat) :
    ∀ current i lineSize,
      (a ∈ icRounds q i current lineSize startAddr endAddr ↔
        ∃ sz ∈ usedSizesAux q i current lineSize,
          a ∈ icSweep (alignDown startAddr sz) endAddr sz) := by
  intro current
  induction current using Nat.strong_induction_on with
  | _ current ih =>
    intro i lineSize
    rw [icRounds, usedSizesAux]
    by_cases h : lineSize < current
    · rw [dif_pos h, dif_pos h, List.mem_append, ih lineSize h (i + 1) (q i)]
      constructor
      · rintro (hl | ⟨sz, hsz, hmem⟩)
        · exact ⟨lineSize, List.mem_cons_self _ _, hl⟩
        · exact ⟨sz, List.mem_cons_of_mem _ hsz, hmem⟩
      · rintro ⟨sz, hsz, hmem⟩
        rcases List.mem_cons.mp hsz with rfl | hsz
        · exact Or.inl hmem
        · exact Or.inr ⟨sz, hsz, hmem⟩
    · rw [dif_neg h, dif_neg h]
      simp

theorem usedSizesAux_isLineSize (q : Nat → Nat) (hq : ∀ j, IsLineSize (q j)) :
    ∀ current i lineSize, IsLineSize lineSize →
      ∀ sz ∈ usedSizesAux q i current lineSize, IsLineSize sz := by
  intro current
  induction current using Nat.strong_induction_on with
  | _ current ih =>
    intro i lineSize hl sz hsz
    rw [usedSizesAux] at hsz
    by_cases h : lineSize < current
    · rw [dif_pos h] at hsz
      rcases List.mem_cons.mp hsz with rfl | hsz
      · exact hl
      · exact ih lineSize h (i + 1) (q i) (hq i) sz hsz
    · rw [dif_neg h] at hsz
      exact absurd hsz (List.not_mem_nil sz)

/-- The swept sizes strictly decrease within the 16 hardware-expressible
line sizes, so a loop entered with size `2 ^ (k + 2)` runs at most `k + 1`
sweep rounds. -/
theorem usedSizesAux_length_le (q : Nat → Nat)
    (hq : ∀ j, ∃ kj, kj ≤ 15 ∧ q j = 2 ^ (kj + 2)) :
    ∀ current i lineSize k, lineSize = 2 ^ (k + 2) →
      (usedSizesAux q i current lineSize).length ≤ k + 1 := by
  intro current
  induction current using Nat.strong_induction_on with
  | _ current ih =>
    intro i lineSize k hk
    rw [usedSizesAux]
    by_cases h : lineSize < current
    · rw [dif_pos h]
      simp only [List.length_cons]
      obtain ⟨k2, hk2le, hk2⟩ := hq i
      by_cases h2 : q i < lineSize
      · have hkk : k2 < k := by
          have hpow : (2 : Nat) ^ (k2 + 2) < 2 ^ (k + 2) := by
            rw [← hk2, ← hk]
            exact h2
          have := (Nat.pow_lt_pow_iff_right (by omega : 1 < 2)).mp hpow
          omega
        have := ih lineSize h (i + 1) (q i) k2 hk2
        omega
      · rw [usedSizesAux, dif_neg h2]
        simp
    · rw [dif_neg h]
      simp

theorem icSweep_length_aux (endAddr lineSize : Nat) (hs : 0 < lineSize) :
    ∀ n addr, endAddr - addr ≤ n →
      (icSweep addr endAddr lineSize).length
        = (endAddr - addr + lineSize - 1) / lineSize := by
  intro n
  induction n with
  | zero =>
    intro addr h
    rw [icSweep, dif_neg (by omega)]
    rw [List.length_nil, Nat.div_eq_of_lt (by omega)]
  | succ n ih =>
    intro addr h
    by_cases hlt : addr < endAddr
    · rw [icSweep, dif_pos hlt, dif_pos hs, List.length_cons,
        ih (addr + lineSize) (by omega)]
      by_cases hbig : addr + lineSize < endAddr
      · have h1 : endAddr - (addr + lineSize) + lineSize - 1
            = endAddr - addr - 1 := by omega
        have h2 : endAddr - addr + lineSize - 1
            = (endAddr - addr - 1) + lineSize := by omega
        rw [h1, h2, Nat.add_div_right _ hs]
      · have h1 : endAddr - (addr + lineSize) + lineSize - 1 = lineSize - 1 := by
          omega
        have h2 : endAddr - addr + lineSize - 1
            = (endAddr - addr - 1) + lineSize := by omega
        rw [h1, h2, Nat.add_div_right _ hs,
          Nat.div_eq_of_lt (by omega : lineSize - 1 < lineSize),
          Nat.div_eq_of_lt (by omega : endAddr - addr - 1 < lineSize)]
    · rw [icSweep, dif_neg hlt]
      rw [List.length_nil, Nat.div_eq_of_lt (by omega)]

/-- One sweep round with line size `s` issues at most `len / s + 2`
invalidations over a range of `len` bytes (the `+ 2` slack comes from
flooring and from aligning the start address down). -/
theorem icSweep_work_le (start len lineSize : Nat) (hs : 0 < lineSize) :
    (icSweep (alignDown start lineSize) (start + len) lineSize).length
      ≤ len / lineSize + 2 := by
  rw [icSweep_length_aux (start + len) lineSize hs
    (start + len - alignDown start lineSize) _ le_rfl]
  unfold alignDown
  have hmlt : start % lineSize < lineSize := Nat.mod_lt start hs
  have hmono : start + len - (start - start % lineSize) + lineSize - 1
      ≤ len + lineSize + lineSize := by omega
  calc (start + len - (start - start % lineSize) + lineSize - 1) / lineSize
      ≤ (len + lineSize + lineSize) / lineSize := Nat.div_le_div_right hmono
    _ = len / lineSize + 2 := by
        rw [Nat.add_div_right _ hs, Nat.add_div_right _ hs]

theorem usedLineSizes_isLineSize (ctr : Nat → Nat) :
    ∀ sz ∈ usedLineSizes ctr, IsLineSize sz :=
  usedSizesAux_isLineSize _ (fun j => ⟨ctr j, rfl⟩) 0xFFFFFFFF 1 _ ⟨ctr 0, rfl⟩

/-! ## Claims about the cache coherency manager -/

/-- Claim C3, counterexample: for the unaligned 4-byte range `[62, 66)` and
line size 64 the fast path issues one invalidation at `62 & !3 = 60`, whose
line (base 0) does not cover the line at base 64 that the general sweep
would also invalidate — the fast path misses a line when the small range is
not 4-byte aligned and straddles a line boundary. -/
theorem fastpath_superset_cex :
    invalidate_icache_lines (fun _ => 4) 62 4 = [alignDown 62 4] ∧
    alignDown 62 4 = 60 ∧
    IsLineSize 64 ∧
    (64 : Nat) ∈ icSweep (alignDown 62 64) (62 + 4) 64 ∧
    alignDown 64 64 ≠ alignDown 60 64 := by
  refine ⟨by rw [invalidate_icache_lines, if_pos (by omega)], by decide,
    ⟨4, rfl⟩, ?_, by decide⟩
  simp [icSweep, alignDown]

/-- Claim C3 as amended: for every byte range of length 1 through 4 whose
start address is 4-byte aligned (as every instruction patch is on aarch64),
and every line size the hardware can report, the fast path issues a single
invalidation at `start & !3` and every address the general sweep would
invalidate for that range lies in that same cache line — the fast path
covers every line the general path would. -/
theorem fastpath_covers_lines_aligned (ctr : Nat → Nat) (start len s : Nat)
    (hal : 4 ∣ start) (h1 : 1 ≤ len) (h4 : len ≤ 4) (hs : IsLineSize s) :
    invalidate_icache_lines ctr start len = [alignDown start 4] ∧
    ∀ a ∈ icSweep (alignDown start s) (start + len) s,
      alignDown a s = alignDown (alignDown start 4) s := by
  have hpos : 0 < s := isLineSize_pos s hs
  have h4s : 4 ∣ s := isLineSize_dvd_four s hs
  constructor
  · rw [invalidate_icache_lines, if_pos h4]
  · intro a ha
    rw [mem_icSweep_alignDown start (start + len) s a hpos] at ha
    obtain ⟨hdvd, hlt, hgt⟩ := ha
    have h4a : 4 ∣ a := dvd_trans h4s hdvd
    have hamod : a % s = 0 := Nat.dvd_iff_mod_eq_zero.mp hdvd
    have hs40 : start % 4 = 0 := Nat.dvd_iff_mod_eq_zero.mp hal
    have ha40 : a % 4 = 0 := Nat.dvd_iff_mod_eq_zero.mp h4a
    have hle : a ≤ start := by omega
    obtain ⟨m, hm⟩ := hdvd
    have hml : s * m = m * s := Nat.mul_comm _ _
    have hdiv : start / s = m := by
      refine Nat.div_eq_of_lt_le (by omega) ?_
      rw [Nat.add_mul]
      omega
    have hdm := Nat.div_add_mod start s
    rw [hdiv] at hdm
    unfold alignDown
    rw [hs40, Nat.sub_zero, hamod, Nat.sub_zero]
    omega

/-- Witness for the amended C3: aligned range `[64, 68)`, line size 64. -/
theorem fastpath_covers_lines_aligned_witness :
    invalidate_icache_lines (fun _ => 4) 64 4 = [alignDown 64 4] ∧
    ∀ a ∈ icSweep (alignDown 64 64) (64 + 4) 64,
      alignDown a 64 = alignDown (alignDown 64 4) 64 :=
  fastpath_covers_lines_aligned (fun _ => 4) 64 4 64 ⟨16, rfl⟩ (by omega)
    (by omega) ⟨4, rfl⟩

/-- Claim C4, counterexample: on the spec's own example query sequence
64, 64, 32 (here `ctr_el0` reads 4, 4, 3) and the 8-byte range `[32, 40)`,
the loop sweeps once with 64 and stops as soon as the re-query returns 64
again; the later 32 is part of the queried sequence and its line at base 32
covers the range, yet address 32 is never invalidated — the union over
"every size in the queried sequence" is not achieved. -/
theorem sweep_union_queried_cex :
    get_cacheline_size 4 = 64 ∧ get_cacheline_size 3 = 32 ∧
    lineCovers 32 32 32 (32 + 8) ∧
    invalidate_icache_lines (fun j => if j ≤ 1 then 4 else 3) 32 8 = [0] ∧
    (32 : Nat) ∉ invalidate_icache_lines (fun j => if j ≤ 1 then 4 else 3) 32 8 := by
  have h64 : get_cacheline_size 4 = 64 := rfl
  have h32 : get_cacheline_size 3 = 32 := rfl
  refine ⟨rfl, rfl, ⟨⟨1, by omega⟩, by omega, by omega⟩, ?_, ?_⟩
  · simp [invalidate_icache_lines, icache_sweep_loop, icRounds, icSweep,
      alignDown, h64, h32]
  · simp [invalidate_icache_lines, icache_sweep_loop, icRounds, icSweep,
      alignDown, h64, h32]

/-- Claim C4 as amended: for every byte range longer than 4 bytes and every
query sequence, the sweep loop invalidates exactly the union of the line
sets implied by the sizes it actually sweeps with (the first queried size
and each subsequent strictly smaller re-query, up to the terminating
non-smaller query) — every line any swept size implies is invalidated,
possibly redundantly but never insufficiently. -/
theorem sweep_union_used_sizes (ctr : Nat → Nat) (start len a : Nat) (hlen : 4 < len) :
    a ∈ invalidate_icache_lines ctr start len ↔
      ∃ s ∈ usedLineSizes ctr, lineCovers s a start (start + len) := by
  rw [invalidate_icache_lines, if_neg (by omega), icache_sweep_loop,
    mem_icRounds (fun j => get_cacheline_size (ctr j)) start (start + len) a
      0xFFFFFFFF 1 (get_cacheline_size (ctr 0))]
  constructor
  · rintro ⟨sz, hsz, hmem⟩
    refine ⟨sz, hsz, ?_⟩
    have hpos : 0 < sz := isLineSize_pos sz (usedLineSizes_isLineSize ctr sz hsz)
    exact (mem_icSweep_alignDown start (start + len) sz a hpos).mp hmem
  · rintro ⟨sz, hsz, hcov⟩
    refine ⟨sz, hsz, ?_⟩
    have hpos : 0 < sz := isLineSize_pos sz (usedLineSizes_isLineSize ctr sz hsz)
    exact (mem_icSweep_alignDown start (start + len) sz a hpos).mpr hcov

/-- Witness for the amended C4: constant 64-byte line size, range `[0, 5)`. -/
theorem sweep_union_used_sizes_witness :
    (0 : Nat) ∈ invalidate_icache_lines (fun _ => 4) 0 5 :=
  (sweep_union_used_sizes (fun _ => 4) 0 5 0 (by omega)).mpr
    ⟨64, by
      have h64 : get_cacheline_size 4 = 64 := rfl
      simp [usedLineSizes, usedSizesAux, h64],
      ⟨⟨0, by omega⟩, by omega, by omega⟩⟩

/-- Claim C5, counterexample: with a constant 64-byte line size and the
5-byte range `[0, 5)`, the single sweep round issues 1 invalidation while
the claimed bound "range length divided by that round's line size" is
`5 / 64 = 0`. -/
theorem sweep_work_bound_cex :
    (64 : Nat) ∈ usedLineSizes (fun _ => 4) ∧
    invalidate_icache_lines (fun _ => 4) 0 5 = [0] ∧
    (icSweep (alignDown 0 64) (0 + 5) 64).length = 1 ∧
    ¬ (icSweep (alignDown 0 64) (0 + 5) 64).length ≤ 5 / 64 := by
  have h64 : get_cacheline_size 4 = 64 := rfl
  refine ⟨by simp [usedLineSizes, usedSizesAux, h64], ?_, ?_, ?_⟩
  · simp [invalidate_icache_lines, icache_sweep_loop, icRounds, icSweep,
      alignDown, h64]
  · simp [icSweep, alignDown]
  · simp [icSweep, alignDown]

/-- Claim C5 as amended: for every byte range and every query sequence the
hardware can produce, the re-query sweep loop runs at most 16 sweep rounds
(the swept sizes strictly decrease among the 16 expressible line sizes, so
it always terminates), and each round with line size `s` issues at most
`len / s + 2` invalidations over a range of `len` bytes — the claimed bound
`len / s` plus slack 2 for flooring and start-address alignment. -/
theorem sweep_rounds_work_bound (ctr : Nat → Nat) (start len : Nat) :
    (usedLineSizes ctr).length ≤ 16 ∧
    ∀ s ∈ usedLineSizes ctr,
      (icSweep (alignDown start s) (start + len) s).length ≤ len / s + 2 := by
  constructor
  · have hq : ∀ j, ∃ kj, kj ≤ 15 ∧ get_cacheline_size (ctr j) = 2 ^ (kj + 2) :=
      fun j => isLineSize_pow _ ⟨ctr j, rfl⟩
    obtain ⟨k0, hk0le, hk0⟩ := hq 0
    have hlen := usedSizesAux_length_le (fun j => get_cacheline_size (ctr j)) hq
      0xFFFFFFFF 1 _ k0 hk0
    unfold usedLineSizes
    omega
  · intro s hs
    exact icSweep_work_le start len s
      (isLineSize_pos s (usedLineSizes_isLineSize ctr s hs))
